import Mathlib

/-! # InvestView: the search core of `script.js`

A shallow embedding of the two decision procedures of `script.js`:

* `buscar` (the Matcher): three fallback tiers over the catalog `dados`;
* `updateSuggestions` (the Suggester): one filter pass, cut to six entries.

Strings are lists of Unicode characters (a JavaScript string with an unpaired
surrogate has no counterpart here).  `String.prototype.toLowerCase` is a
library function driven by the Unicode case tables; it is taken as a parameter
`lower`, so every result below holds for whatever case mapping the host
provides.  `asciiLower` is the instance used to evaluate the definitions on
concrete ASCII inputs.  `trim`, `includes` and `split(/\s+/)` are defined
explicitly from their ECMAScript semantics.  The click handler of a suggestion
goes through the input box, which is declared by the page and not by the
script: what the box hands back is a parameter too, with `textInput` as the
instance used on concrete inputs.
-/

namespace InvestView

/-! ## Values and records -/

/-- A JavaScript string, as the list of its characters. -/
abbrev Str := List Char

/-- The values a text field of a record, or the input box, can hold:
a missing property (`undefined`), `null`, or a string. -/
inductive JSVal where
  | undefined : JSVal
  | null : JSVal
  | str (s : Str) : JSVal
  deriving DecidableEq, Repr

/-- The three properties of a catalog record that `buscar` and
`updateSuggestions` read: `item.ticker`, `item.nome`, `item.setor`. -/
structure Item where
  ticker : JSVal
  nome : JSVal
  setor : JSVal
  deriving DecidableEq, Repr

/-! ## Library functions -/

/-- The code points matched by `\s` in a regular expression and removed by
`String.prototype.trim`: ECMAScript WhiteSpace and LineTerminator. -/
def isJsSpace (c : Char) : Bool :=
  let n := c.toNat
  n == 9 || n == 10 || n == 11 || n == 12 || n == 13 || n == 32 || n == 160 ||
  n == 5760 || (8192 ≤ n && n ≤ 8202) || n == 8232 || n == 8233 || n == 8239 ||
  n == 8287 || n == 12288 || n == 65279

/-- The JavaScript `s.trim()`: drops leading and trailing whitespace. -/
def trim (s : Str) : Str :=
  ((s.dropWhile isJsSpace).reverse.dropWhile isJsSpace).reverse

/-- The JavaScript `s.includes(t)`: `t` occurs in `s` as a contiguous run. -/
def includes : Str → Str → Bool
  | [], t => t.isEmpty
  | c :: cs, t => t.isPrefixOf (c :: cs) || includes cs t

/-- The JavaScript `s.split(/\s+/)`, reading `s` from the left.  `inSep` tells
whether the previous character belonged to a separator run.  A separator at
the very start or end of `s` leaves an empty first or last piece, and the empty
string splits into one empty piece. -/
def splitGo (inSep : Bool) : Str → List Str
  | [] => [[]]
  | c :: cs =>
    if isJsSpace c then
      if inSep then splitGo true cs else [] :: splitGo true cs
    else
      match splitGo false cs with
      | [] => [[c]]
      | t :: ts => (c :: t) :: ts

/-- The JavaScript `s.split(/\s+/)`. -/
def split (s : Str) : List Str :=
  splitGo false s

/-- A case mapping that lower-cases the letters `A`–`Z` and leaves every other
character alone.  It agrees with `toLowerCase` on every string whose upper-case
letters are all ASCII. -/
def asciiLower (s : Str) : Str :=
  s.map fun c => if 65 ≤ c.toNat ∧ c.toNat ≤ 90 then Char.ofNat (c.toNat + 32) else c

/-! ## Helpers of `script.js` -/

/-- The JavaScript `(s || "").toString()`: `undefined`, `null` and the empty
string are falsy and give `""`; any other string is itself. -/
def orEmpty : JSVal → Str
  | .undefined => []
  | .null => []
  | .str s => s

/-- The function `safeLower(s) { return (s || "").toString().toLowerCase(); }`. -/
def safeLower (lower : Str → Str) (s : JSVal) : Str :=
  lower (orEmpty s)

/-- The template literal with one substitution, as in the click handler's
assignment to `input.value`: the string conversion of the value. -/
def template : JSVal → Str
  | .undefined => "undefined".toList
  | .null => "null".toList
  | .str s => s

/-! ## The Matcher -/

/-- What `buscar` leaves in the result area: the hint shown for a blank query,
the not-found message (which quotes `input.value`), or the card of the record
that was found. -/
inductive Resultado where
  | hint : Resultado
  | notFound (inputValue : JSVal) : Resultado
  | card (acao : Item) : Resultado
  deriving DecidableEq, Repr

/-- The record shown, if any. -/
def Resultado.found : Resultado → Option Item
  | .card acao => some acao
  | _ => none

/-- The predicate of the first `find`: `safeLower(item.ticker) === q`. -/
def tickerIs (lower : Str → Str) (q : Str) (item : Item) : Bool :=
  decide (safeLower lower item.ticker = q)

/-- The predicate of the second `find`:
`safeLower(item.nome).includes(q) || safeLower(item.setor).includes(q)`. -/
def nomeOuSetor (lower : Str → Str) (q : Str) (item : Item) : Bool :=
  includes (safeLower lower item.nome) q || includes (safeLower lower item.setor) q

/-- The predicate of the third `find`: `tokens.every(t => ...)`. -/
def todosTokens (lower : Str → Str) (tokens : List Str) (item : Item) : Bool :=
  tokens.all fun t =>
    includes (safeLower lower item.nome) t || includes (safeLower lower item.setor) t

/-- The normalised query `safeLower(input.value).trim()`. -/
def normalize (lower : Str → Str) (inputValue : JSVal) : Str :=
  trim (safeLower lower inputValue)

/-- The function `buscar`, with the catalog `dados` and `input.value` as
arguments and the content of the result area as its value. -/
def buscar (lower : Str → Str) (dados : List Item) (inputValue : JSVal) : Resultado :=
  let q := trim (safeLower lower inputValue)
  if q.isEmpty then .hint
  else
    let found := dados.find? (tickerIs lower q)
    let found := if found.isNone then dados.find? (nomeOuSetor lower q) else found
    let found :=
      if found.isNone then
        let tokens := split q
        dados.find? (todosTokens lower tokens)
      else found
    match found with
    | none => .notFound inputValue
    | some acao => .card acao

/-! ## The Suggester -/

/-- The filter predicate of `updateSuggestions`. -/
def sugere (lower : Str → Str) (q : Str) (item : Item) : Bool :=
  includes (safeLower lower item.ticker) q ||
  includes (safeLower lower item.nome) q ||
  includes (safeLower lower item.setor) q

/-- The function `updateSuggestions`: the records `matches` for which a list
element is appended to the suggestion box (none on the early return). -/
def updateSuggestions (lower : Str → Str) (dados : List Item) (inputValue : JSVal) :
    List Item :=
  let q := trim (safeLower lower inputValue)
  if q.isEmpty then []
  else (dados.filter (sugere lower q)).take 6

/-- The value sanitisation of a single-line text input: a string assigned to
`input.value` is stored without its line feeds and carriage returns. -/
def textInput (s : Str) : Str :=
  s.filter fun c => !(c.toNat == 10 || c.toNat == 13)

/-- The click handler installed on the suggestion of `m`: it assigns the
template literal of `m.ticker` to `input.value` and calls `buscar`, which reads
`input.value` back.  The page that declares the input box is not part of the
script, so what the box hands back for an assigned string is the parameter
`box`. -/
def clickSuggestion (lower : Str → Str) (box : Str → Str) (dados : List Item) (m : Item) :
    Resultado :=
  buscar lower dados (.str (box (template m.ticker)))

/-! ## Example data -/

/-- A string literal as a JavaScript string value. -/
def lit (s : String) : JSVal := .str s.toList

/-- The two-record catalog of the specification's example. -/
def exemplo : List Item :=
  [ { ticker := lit "PETR4", nome := lit "Petrobras", setor := lit "Petróleo e Gás" },
    { ticker := lit "VALE3", nome := lit "Vale", setor := lit "Mineração" } ]

/-- A catalog of eight records, seven of which carry the letter `a` in a name
or a sector. -/
def carteira : List Item :=
  [ { ticker := lit "ALF1", nome := lit "Alfa", setor := lit "Energia" },
    { ticker := lit "BET2", nome := lit "Beta", setor := lit "Bancos" },
    { ticker := lit "XYZ0", nome := lit "Zulu", setor := lit "Outros" },
    { ticker := lit "GAM3", nome := lit "Gama", setor := lit "Energia" },
    { ticker := lit "DEL4", nome := lit "Delta", setor := lit "Varejo" },
    { ticker := lit "KAP5", nome := lit "Kapa", setor := lit "Bancos" },
    { ticker := lit "LAM6", nome := lit "Lambda", setor := lit "Varejo" },
    { ticker := lit "SIG7", nome := lit "Sigma", setor := lit "Energia" } ]

/-! ## Vocabulary of the specification -/

/-- `x` is the first element of `l`, in order, that satisfies `P`. -/
def IsFirst (P : Item → Prop) (l : List Item) (x : Item) : Prop :=
  ∃ pre post, l = pre ++ x :: post ∧ P x ∧ ∀ y ∈ pre, ¬ P y

/-- The lower-cased ticker of `x` equals `n`. -/
def TickerEq (lower : Str → Str) (n : Str) (x : Item) : Prop :=
  safeLower lower x.ticker = n

/-- The lower-cased name or the lower-cased sector of `x` contains `n`. -/
def InNomeOuSetor (lower : Str → Str) (n : Str) (x : Item) : Prop :=
  n <:+: safeLower lower x.nome ∨ n <:+: safeLower lower x.setor

/-- The all-tokens rule: every piece of `n` split on whitespace runs occurs in
the lower-cased name or in the lower-cased sector of `x`. -/
def AllTokens (lower : Str → Str) (n : Str) (x : Item) : Prop :=
  ∀ t ∈ split n, t <:+: safeLower lower x.nome ∨ t <:+: safeLower lower x.setor

/-- The lower-cased ticker, name or sector of `x` contains `n`. -/
def Suggested (lower : Str → Str) (n : Str) (x : Item) : Prop :=
  n <:+: safeLower lower x.ticker ∨ n <:+: safeLower lower x.nome ∨
    n <:+: safeLower lower x.setor

/-- The string `s` has no line break: no line feed and no carriage return. -/
def NoLineBreak (s : Str) : Prop :=
  ∀ c ∈ s, c.toNat ≠ 10 ∧ c.toNat ≠ 13

/-- The input box hands back unchanged every string without a line break, as a
text input and a text area do. -/
def KeepsLines (box : Str → Str) : Prop :=
  ∀ s : Str, NoLineBreak s → box s = s

/-- An absent, empty or whitespace-only value of the input box. -/
def Blank : JSVal → Prop
  | .undefined => True
  | .null => True
  | .str s => ∀ c ∈ s, isJsSpace c = true

/-- A case mapping sends strings made of whitespace only (the empty string
included) to strings made of whitespace only, as `toLowerCase` does. -/
def KeepsBlank (lower : Str → Str) : Prop :=
  ∀ s : Str, (∀ c ∈ s, isJsSpace c = true) → ∀ c ∈ lower s, isJsSpace c = true

/-- The two-tier matcher that `buscar` is compared with: the blank-query guard,
the exact-ticker tier, then the substring tier, and no tokenized tier. -/
def buscarDoisNiveis (lower : Str → Str) (dados : List Item) (inputValue : JSVal) :
    Resultado :=
  let n := normalize lower inputValue
  if n.isEmpty then .hint
  else
    match dados.find? (tickerIs lower n) with
    | some acao => .card acao
    | none =>
      match dados.find? (nomeOuSetor lower n) with
      | some acao => .card acao
      | none => .notFound inputValue

instance : DecidablePred Blank := fun q =>
  match q with
  | .undefined => isTrue trivial
  | .null => isTrue trivial
  | .str s => inferInstanceAs (Decidable (∀ c ∈ s, isJsSpace c = true))

instance : DecidablePred NoLineBreak := fun s =>
  inferInstanceAs (Decidable (∀ c ∈ s, c.toNat ≠ 10 ∧ c.toNat ≠ 13))

/-! ## Library facts -/

theorem includes_iff (s t : Str) : includes s t = true ↔ t <:+: s := by
  induction s with
  | nil =>
    cases t with
    | nil => simp [includes]
    | cons a t => simp [includes]
  | cons c cs ih =>
    rw [includes, Bool.or_eq_true, ih, List.isPrefixOf_iff_prefix, List.infix_cons_iff]

theorem trim_eq_nil_iff (s : Str) : trim s = [] ↔ ∀ c ∈ s, isJsSpace c = true := by
  unfold trim
  rw [List.reverse_eq_nil_iff, List.dropWhile_eq_nil_iff]
  constructor
  · intro h
    have h2 : s.dropWhile isJsSpace = [] := by
      cases hd : s.dropWhile isJsSpace with
      | nil => rfl
      | cons a l =>
        exfalso
        have ha : isJsSpace a = true := h a (by rw [hd]; simp)
        have hhead := List.head_dropWhile_not isJsSpace s (by rw [hd]; simp)
        simp [hd, ha] at hhead
    exact List.dropWhile_eq_nil_iff.mp h2
  · intro h c hc
    have h2 : s.dropWhile isJsSpace = [] := List.dropWhile_eq_nil_iff.mpr h
    rw [h2] at hc
    simp at hc

theorem splitGo_noSpace (b : Bool) (s : Str) (h : ∀ c ∈ s, isJsSpace c = false) :
    splitGo b s = [s] := by
  induction s generalizing b with
  | nil => simp [splitGo]
  | cons c cs ih =>
    have hc : isJsSpace c = false := h c (by simp)
    have hcs : ∀ d ∈ cs, isJsSpace d = false := fun d hd => h d (by simp [hd])
    unfold splitGo
    simp [hc, ih false hcs]

theorem splitGo_head_prefix (s : Str) :
    ∃ u us, splitGo false s = u :: us ∧ u <+: s := by
  induction s with
  | nil => exact ⟨[], [], by simp [splitGo], List.prefix_refl _⟩
  | cons c cs ih =>
    obtain ⟨u, us, hs, hu⟩ := ih
    unfold splitGo
    by_cases hc : isJsSpace c = true
    · exact ⟨[], splitGo true cs, by simp [hc], List.nil_prefix⟩
    · exact ⟨c :: u, us, by simp [hc, hs], (List.prefix_cons_inj c).mpr hu⟩

theorem splitGo_infix (b : Bool) (s : Str) : ∀ t ∈ splitGo b s, t <:+: s := by
  induction s generalizing b with
  | nil => intro t ht; simp [splitGo] at ht; subst ht; exact List.infix_refl _
  | cons c cs ih =>
    intro t ht
    unfold splitGo at ht
    by_cases hc : isJsSpace c = true
    · by_cases hb : b = true
      · simp only [hc, hb, if_true] at ht
        exact List.infix_cons (ih true t ht)
      · simp only [hc, hb, if_true] at ht
        rcases List.mem_cons.mp ht with h | h
        · subst h; exact List.nil_infix
        · exact List.infix_cons (ih true t h)
    · simp only [hc] at ht
      obtain ⟨u, us, hs, hu⟩ := splitGo_head_prefix cs
      rw [hs] at ht
      rcases List.mem_cons.mp ht with h | h
      · subst h
        exact ((List.prefix_cons_inj c).mpr hu).isInfix
      · exact List.infix_cons (ih false t (by rw [hs]; exact List.mem_cons_of_mem _ h))

theorem split_noSpace (s : Str) (h : ∀ c ∈ s, isJsSpace c = false) : split s = [s] :=
  splitGo_noSpace false s h

theorem split_infix (s : Str) : ∀ t ∈ split s, t <:+: s :=
  splitGo_infix false s

theorem isJsSpace_not_upper (c : Char) (h : isJsSpace c = true) :
    ¬ (65 ≤ c.toNat ∧ c.toNat ≤ 90) := by
  unfold isJsSpace at h
  simp only [Bool.or_eq_true, Bool.and_eq_true, beq_iff_eq, decide_eq_true_eq] at h
  omega

theorem asciiLower_keepsBlank : KeepsBlank asciiLower := by
  intro s hs c hc
  unfold asciiLower at hc
  obtain ⟨d, hd, rfl⟩ := List.mem_map.mp hc
  have hsp := hs d hd
  rw [if_neg (isJsSpace_not_upper d hsp)]
  exact hsp

theorem take_filter_prefix (p : Item → Bool) (l : List Item) (n : Nat) :
    ∃ k, (l.filter p).take n = (l.take k).filter p := by
  induction l generalizing n with
  | nil => exact ⟨0, by simp⟩
  | cons a l ih =>
    cases n with
    | zero => exact ⟨0, by simp⟩
    | succ n =>
      by_cases ha : p a = true
      · obtain ⟨k, hk⟩ := ih n
        exact ⟨k + 1, by simp [List.filter_cons, ha, hk]⟩
      · obtain ⟨k, hk⟩ := ih (n + 1)
        exact ⟨k + 1, by simp [List.filter_cons, ha, hk]⟩

/-! ## The predicates of the code and of the specification agree -/

instance (lower : Str → Str) (n : Str) : DecidablePred (TickerEq lower n) :=
  fun x => inferInstanceAs (Decidable (safeLower lower x.ticker = n))

instance (lower : Str → Str) (n : Str) : DecidablePred (InNomeOuSetor lower n) :=
  fun x => inferInstanceAs
    (Decidable (n <:+: safeLower lower x.nome ∨ n <:+: safeLower lower x.setor))

instance (lower : Str → Str) (n : Str) : DecidablePred (AllTokens lower n) :=
  fun x => inferInstanceAs
    (Decidable (∀ t ∈ split n,
      t <:+: safeLower lower x.nome ∨ t <:+: safeLower lower x.setor))

instance (lower : Str → Str) (n : Str) : DecidablePred (Suggested lower n) :=
  fun x => inferInstanceAs
    (Decidable (n <:+: safeLower lower x.ticker ∨ n <:+: safeLower lower x.nome ∨
      n <:+: safeLower lower x.setor))

theorem tickerIs_iff (lower : Str → Str) (n : Str) (x : Item) :
    tickerIs lower n x = true ↔ TickerEq lower n x := by
  simp [tickerIs, TickerEq]

theorem nomeOuSetor_iff (lower : Str → Str) (n : Str) (x : Item) :
    nomeOuSetor lower n x = true ↔ InNomeOuSetor lower n x := by
  simp [nomeOuSetor, InNomeOuSetor, includes_iff]

theorem todosTokens_iff (lower : Str → Str) (n : Str) (x : Item) :
    todosTokens lower (split n) x = true ↔ AllTokens lower n x := by
  simp [todosTokens, AllTokens, includes_iff]

theorem sugere_iff (lower : Str → Str) (n : Str) (x : Item) :
    sugere lower n x = true ↔ Suggested lower n x := by
  simp [sugere, Suggested, includes_iff, or_assoc]

/-! ## Facts about `find` -/

theorem find?_isFirst {p : Item → Bool} {P : Item → Prop} (hp : ∀ x, p x = true ↔ P x)
    {l : List Item} {x : Item} (h : l.find? p = some x) : IsFirst P l x := by
  obtain ⟨hx, pre, post, hl, hpre⟩ := List.find?_eq_some.mp h
  refine ⟨pre, post, hl, (hp x).mp hx, ?_⟩
  intro y hy hPy
  have := hpre y hy
  simp [(hp y).mpr hPy] at this

theorem find?_none_of {p : Item → Bool} {P : Item → Prop} (hp : ∀ x, p x = true ↔ P x)
    {l : List Item} (h : ∀ x ∈ l, ¬ P x) : l.find? p = none := by
  rw [List.find?_eq_none]
  intro x hx hpx
  exact h x hx ((hp x).mp hpx)

theorem find?_some_of {p : Item → Bool} {P : Item → Prop} (hp : ∀ x, p x = true ↔ P x)
    {l : List Item} (h : ∃ x ∈ l, P x) : ∃ x, l.find? p = some x := by
  obtain ⟨y, hy, hPy⟩ := h
  cases hf : l.find? p with
  | some x => exact ⟨x, rfl⟩
  | none =>
    rw [List.find?_eq_none] at hf
    exact absurd ((hp y).mpr hPy) (hf y hy)

theorem isFirst_mem {P : Item → Prop} {l : List Item} {x : Item} (h : IsFirst P l x) :
    x ∈ l ∧ P x := by
  obtain ⟨pre, post, hl, hx, _⟩ := h
  exact ⟨by rw [hl]; simp, hx⟩

theorem isFirst_unique {P : Item → Prop} {l : List Item} {x y : Item}
    (hx : IsFirst P l x) (hy : IsFirst P l y) : x = y := by
  obtain ⟨pre, post, hl, hPx, hpre⟩ := hx
  obtain ⟨pre2, post2, hl2, hPy, hpre2⟩ := hy
  rw [hl] at hl2
  rcases List.append_eq_append_iff.mp hl2 with ⟨a, ha, hb⟩ | ⟨c, hc, hd⟩
  · cases a with
    | nil =>
      simp only [List.nil_append] at hb
      injection hb
    | cons z zs =>
      simp only [List.cons_append] at hb
      injection hb with hz _
      subst hz
      exact absurd hPx (hpre2 x (by rw [ha]; simp))
  · cases c with
    | nil =>
      simp only [List.nil_append] at hd
      injection hd with hz _
      exact hz.symm
    | cons z zs =>
      simp only [List.cons_append] at hd
      injection hd with hz _
      subst hz
      exact absurd hPy (hpre y (by rw [hc]; simp))

/-! ## The shape of `buscar` -/

theorem buscar_blank (lower : Str → Str) (dados : List Item) (q : JSVal)
    (hn : normalize lower q = []) : buscar lower dados q = .hint := by
  unfold normalize at hn
  simp [buscar, hn]

theorem buscar_tier1 (lower : Str → Str) (dados : List Item) (q : JSVal) (x : Item)
    (hn : normalize lower q ≠ [])
    (h1 : dados.find? (tickerIs lower (normalize lower q)) = some x) :
    buscar lower dados q = .card x := by
  unfold normalize at hn h1
  simp [buscar, hn, h1]

theorem buscar_tier2 (lower : Str → Str) (dados : List Item) (q : JSVal) (x : Item)
    (hn : normalize lower q ≠ [])
    (h1 : dados.find? (tickerIs lower (normalize lower q)) = none)
    (h2 : dados.find? (nomeOuSetor lower (normalize lower q)) = some x) :
    buscar lower dados q = .card x := by
  unfold normalize at hn h1 h2
  simp [buscar, hn, h1, h2]

theorem buscar_tier3 (lower : Str → Str) (dados : List Item) (q : JSVal) (x : Item)
    (hn : normalize lower q ≠ [])
    (h1 : dados.find? (tickerIs lower (normalize lower q)) = none)
    (h2 : dados.find? (nomeOuSetor lower (normalize lower q)) = none)
    (h3 : dados.find? (todosTokens lower (split (normalize lower q))) = some x) :
    buscar lower dados q = .card x := by
  unfold normalize at hn h1 h2 h3
  simp [buscar, hn, h1, h2, h3]

theorem buscar_none (lower : Str → Str) (dados : List Item) (q : JSVal)
    (hn : normalize lower q ≠ [])
    (h1 : dados.find? (tickerIs lower (normalize lower q)) = none)
    (h2 : dados.find? (nomeOuSetor lower (normalize lower q)) = none)
    (h3 : dados.find? (todosTokens lower (split (normalize lower q))) = none) :
    buscar lower dados q = .notFound q := by
  unfold normalize at hn h1 h2 h3
  simp [buscar, hn, h1, h2, h3]

/-! ## The Matcher: the three tiers -/

/-- C1, as amended: for every catalog and every query whose normalised form `n`
(lower-cased, then trimmed) is non-empty, if some entry's lower-cased ticker
equals `n`, then `buscar` shows a card, and the entry shown is the first entry in
catalog order whose lower-cased ticker equals `n`, whatever the earlier entries
match by name or sector. -/
theorem buscar_exact_ticker (lower : Str → Str) (dados : List Item) (q : JSVal)
    (hn : normalize lower q ≠ [])
    (hex : ∃ x ∈ dados, TickerEq lower (normalize lower q) x) :
    ∃ x, IsFirst (TickerEq lower (normalize lower q)) dados x ∧
      buscar lower dados q = .card x := by
  obtain ⟨x, hx⟩ := find?_some_of (tickerIs_iff lower (normalize lower q)) hex
  exact ⟨x, find?_isFirst (tickerIs_iff lower _) hx, buscar_tier1 lower dados q x hn hx⟩

/-- Witness of `buscar_exact_ticker`: the query ` petr4 ` on the example catalog. -/
theorem buscar_exact_ticker_witness :
    normalize asciiLower (lit " petr4 ") ≠ [] ∧
    (∃ x ∈ exemplo, TickerEq asciiLower (normalize asciiLower (lit " petr4 ")) x) ∧
    (∃ x, IsFirst (TickerEq asciiLower (normalize asciiLower (lit " petr4 "))) exemplo x ∧
      buscar asciiLower exemplo (lit " petr4 ") = .card x) ∧
    buscar asciiLower exemplo (lit " petr4 ") =
      .card ⟨lit "PETR4", lit "Petrobras", lit "Petróleo e Gás"⟩ :=
  ⟨by decide, by decide,
    buscar_exact_ticker asciiLower exemplo (lit " petr4 ") (by decide) (by decide),
    by decide⟩

/-- C1 as stated fails: a query equal to an entry's ticker finds nothing when
both carry a leading blank (the query is trimmed, the ticker is not), and a
query equal to an empty ticker only brings up the hint. -/
theorem buscar_exact_ticker_counterexample :
    (∃ x ∈ [Item.mk (lit " ab") (lit "x") (lit "y")], x.ticker = lit " ab") ∧
    buscar asciiLower [Item.mk (lit " ab") (lit "x") (lit "y")] (lit " ab")
      = .notFound (lit " ab") ∧
    (∃ x ∈ [Item.mk (lit "") (lit "x") (lit "y")], x.ticker = lit "") ∧
    buscar asciiLower [Item.mk (lit "") (lit "x") (lit "y")] (lit "") = .hint := by
  decide

/-- C2: for every catalog and every query whose normalised form `n` is
non-empty, if no entry's lower-cased ticker equals `n` and some entry's
lower-cased name or sector contains `n`, then `buscar` shows the first entry in
catalog order whose lower-cased name or sector contains `n`. -/
theorem buscar_substring_tier (lower : Str → Str) (dados : List Item) (q : JSVal)
    (hn : normalize lower q ≠ [])
    (h1 : ∀ x ∈ dados, ¬ TickerEq lower (normalize lower q) x)
    (h2 : ∃ x ∈ dados, InNomeOuSetor lower (normalize lower q) x) :
    ∃ x, IsFirst (InNomeOuSetor lower (normalize lower q)) dados x ∧
      buscar lower dados q = .card x := by
  have e1 := find?_none_of (tickerIs_iff lower (normalize lower q)) h1
  obtain ⟨x, hx⟩ := find?_some_of (nomeOuSetor_iff lower (normalize lower q)) h2
  exact ⟨x, find?_isFirst (nomeOuSetor_iff lower _) hx,
    buscar_tier2 lower dados q x hn e1 hx⟩

/-- Witness of `buscar_substring_tier`: the query `petro` on the example
catalog. -/
theorem buscar_substring_tier_witness :
    normalize asciiLower (lit "petro") ≠ [] ∧
    (∀ x ∈ exemplo, ¬ TickerEq asciiLower (normalize asciiLower (lit "petro")) x) ∧
    (∃ x ∈ exemplo, InNomeOuSetor asciiLower (normalize asciiLower (lit "petro")) x) ∧
    (∃ x, IsFirst (InNomeOuSetor asciiLower (normalize asciiLower (lit "petro"))) exemplo x ∧
      buscar asciiLower exemplo (lit "petro") = .card x) ∧
    buscar asciiLower exemplo (lit "petro") =
      .card ⟨lit "PETR4", lit "Petrobras", lit "Petróleo e Gás"⟩ :=
  ⟨by decide, by decide, by decide,
    buscar_substring_tier asciiLower exemplo (lit "petro") (by decide) (by decide)
      (by decide),
    by decide⟩

/-- C3: for every catalog and every query whose normalised form `n` is
non-empty, if no entry's lower-cased ticker equals `n`, no entry's lower-cased
name or sector contains `n`, and some entry satisfies the all-tokens rule, then
`buscar` shows the first entry in catalog order that satisfies the all-tokens
rule. -/
theorem buscar_token_tier (lower : Str → Str) (dados : List Item) (q : JSVal)
    (hn : normalize lower q ≠ [])
    (h1 : ∀ x ∈ dados, ¬ TickerEq lower (normalize lower q) x)
    (h2 : ∀ x ∈ dados, ¬ InNomeOuSetor lower (normalize lower q) x)
    (h3 : ∃ x ∈ dados, AllTokens lower (normalize lower q) x) :
    ∃ x, IsFirst (AllTokens lower (normalize lower q)) dados x ∧
      buscar lower dados q = .card x := by
  have e1 := find?_none_of (tickerIs_iff lower (normalize lower q)) h1
  have e2 := find?_none_of (nomeOuSetor_iff lower (normalize lower q)) h2
  obtain ⟨x, hx⟩ := find?_some_of (todosTokens_iff lower (normalize lower q)) h3
  exact ⟨x, find?_isFirst (todosTokens_iff lower _) hx,
    buscar_tier3 lower dados q x hn e1 e2 hx⟩

/-- Witness of `buscar_token_tier`: the query `vale mineração` on the example
catalog, whose two words are found in the name and in the sector of `VALE3`. -/
theorem buscar_token_tier_witness :
    normalize asciiLower (lit "vale mineração") ≠ [] ∧
    (∀ x ∈ exemplo, ¬ TickerEq asciiLower (normalize asciiLower (lit "vale mineração")) x) ∧
    (∀ x ∈ exemplo,
      ¬ InNomeOuSetor asciiLower (normalize asciiLower (lit "vale mineração")) x) ∧
    (∃ x ∈ exemplo, AllTokens asciiLower (normalize asciiLower (lit "vale mineração")) x) ∧
    (∃ x, IsFirst (AllTokens asciiLower (normalize asciiLower (lit "vale mineração")))
        exemplo x ∧
      buscar asciiLower exemplo (lit "vale mineração") = .card x) ∧
    buscar asciiLower exemplo (lit "vale mineração") =
      .card ⟨lit "VALE3", lit "Vale", lit "Mineração"⟩ :=
  ⟨by decide, by decide, by decide, by decide,
    buscar_token_tier asciiLower exemplo (lit "vale mineração") (by decide) (by decide)
      (by decide) (by decide),
    by decide⟩

/-! ## The Suggester -/

theorem normalize_blank (lower : Str → Str) (hl : KeepsBlank lower) (q : JSVal)
    (hq : Blank q) : normalize lower q = [] := by
  unfold normalize safeLower
  rw [trim_eq_nil_iff]
  apply hl
  cases q with
  | undefined => intro c hc; simp [orEmpty] at hc
  | null => intro c hc; simp [orEmpty] at hc
  | str s => exact hq

theorem updateSuggestions_eq (lower : Str → Str) (dados : List Item) (q : JSVal)
    (hn : normalize lower q ≠ []) :
    updateSuggestions lower dados q
      = (dados.filter (sugere lower (normalize lower q))).take 6 := by
  unfold normalize at hn
  simp [updateSuggestions, normalize, hn]

theorem sugere_eq_decide (lower : Str → Str) (n : Str) :
    sugere lower n = fun x => decide (Suggested lower n x) := by
  funext x
  rw [Bool.eq_iff_iff, sugere_iff]
  simp

/-- C4: for every catalog and every query whose normalised form `n` is
non-empty, the suggestion list is the first six elements (all, if fewer) of the
catalog filtered in order by "the lower-cased ticker, name or sector contains
`n`"; it is a subsequence of the catalog, and it consists of all the matching
entries of an initial segment of the catalog, so no matching entry is passed
over for a later one. -/
theorem updateSuggestions_complete (lower : Str → Str) (dados : List Item) (q : JSVal)
    (hn : normalize lower q ≠ []) :
    updateSuggestions lower dados q
      = (dados.filter fun x => decide (Suggested lower (normalize lower q) x)).take 6 ∧
    List.Sublist (updateSuggestions lower dados q) dados ∧
    ∃ k, updateSuggestions lower dados q
      = (dados.take k).filter fun x => decide (Suggested lower (normalize lower q) x) := by
  rw [updateSuggestions_eq lower dados q hn, sugere_eq_decide]
  refine ⟨rfl, ?_, take_filter_prefix _ dados 6⟩
  exact (List.take_sublist _ _).trans (List.filter_sublist _)

/-- Witness of `updateSuggestions_complete`: the query `a` on the eight-record
catalog selects the first six of its seven matching records. -/
theorem updateSuggestions_complete_witness :
    normalize asciiLower (lit "a") ≠ [] ∧
    (updateSuggestions asciiLower carteira (lit "a")
      = (carteira.filter fun x =>
          decide (Suggested asciiLower (normalize asciiLower (lit "a")) x)).take 6 ∧
    List.Sublist (updateSuggestions asciiLower carteira (lit "a")) carteira ∧
    ∃ k, updateSuggestions asciiLower carteira (lit "a")
      = (carteira.take k).filter fun x =>
          decide (Suggested asciiLower (normalize asciiLower (lit "a")) x)) ∧
    (updateSuggestions asciiLower carteira (lit "a")).map Item.ticker
      = [lit "ALF1", lit "BET2", lit "GAM3", lit "DEL4", lit "KAP5", lit "LAM6"] :=
  ⟨by decide, updateSuggestions_complete asciiLower carteira (lit "a") (by decide),
    by decide⟩

/-- C5: for every catalog and every query, the suggestion list has at most six
entries, and the lower-cased ticker, name or sector of each of them contains the
normalised query. -/
theorem updateSuggestions_sound (lower : Str → Str) (dados : List Item) (q : JSVal) :
    (updateSuggestions lower dados q).length ≤ 6 ∧
    ∀ m ∈ updateSuggestions lower dados q, Suggested lower (normalize lower q) m := by
  by_cases hn : normalize lower q = []
  · unfold normalize at hn
    simp [updateSuggestions, hn]
  · rw [updateSuggestions_eq lower dados q hn]
    refine ⟨List.length_take_le _ _, ?_⟩
    intro m hm
    have hm2 := List.mem_of_mem_take hm
    rw [List.mem_filter] at hm2
    exact (sugere_iff lower _ m).mp hm2.2

/-- Witness of `updateSuggestions_sound`: the query `a` on the eight-record
catalog. -/
theorem updateSuggestions_sound_witness :
    (updateSuggestions asciiLower carteira (lit "a")).length ≤ 6 ∧
    ∀ m ∈ updateSuggestions asciiLower carteira (lit "a"),
      Suggested asciiLower (normalize asciiLower (lit "a")) m :=
  updateSuggestions_sound asciiLower carteira (lit "a")

/-! ## Blank queries -/

/-- C6: for every catalog and every input that is absent, empty or made of
whitespace only, `buscar` takes its early return: it shows the hint, runs no
tier and selects no entry.  The case mapping is any one that keeps
whitespace-only strings whitespace-only. -/
theorem buscar_blank_query (lower : Str → Str) (hl : KeepsBlank lower)
    (dados : List Item) (q : JSVal) (hq : Blank q) :
    buscar lower dados q = .hint ∧ (buscar lower dados q).found = none := by
  have h := buscar_blank lower dados q (normalize_blank lower hl q hq)
  rw [h]
  exact ⟨rfl, rfl⟩

/-- Witness of `buscar_blank_query`: a query of a blank, a tab and a no-break
space, and an absent query, on the example catalog. -/
theorem buscar_blank_query_witness :
    KeepsBlank asciiLower ∧ Blank (lit " \t\u00a0") ∧ Blank JSVal.undefined ∧
    (buscar asciiLower exemplo (lit " \t\u00a0") = .hint ∧
      (buscar asciiLower exemplo (lit " \t\u00a0")).found = none) ∧
    (buscar asciiLower exemplo JSVal.undefined = .hint ∧
      (buscar asciiLower exemplo JSVal.undefined).found = none) :=
  ⟨asciiLower_keepsBlank, by decide, by decide,
    buscar_blank_query asciiLower asciiLower_keepsBlank exemplo (lit " \t\u00a0") (by decide),
    buscar_blank_query asciiLower asciiLower_keepsBlank exemplo JSVal.undefined (by decide)⟩

/-- C7: for every catalog and every input that is absent, empty or made of
whitespace only, `updateSuggestions` lists nothing.  The case mapping is any one
that keeps whitespace-only strings whitespace-only. -/
theorem updateSuggestions_blank_query (lower : Str → Str) (hl : KeepsBlank lower)
    (dados : List Item) (q : JSVal) (hq : Blank q) :
    updateSuggestions lower dados q = [] := by
  have h := normalize_blank lower hl q hq
  unfold normalize at h
  simp [updateSuggestions, h]

/-- Witness of `updateSuggestions_blank_query`: the empty query and a query of
two blanks on the eight-record catalog. -/
theorem updateSuggestions_blank_query_witness :
    KeepsBlank asciiLower ∧ Blank (lit "") ∧ Blank (lit "  ") ∧
    updateSuggestions asciiLower carteira (lit "") = [] ∧
    updateSuggestions asciiLower carteira (lit "  ") = [] :=
  ⟨asciiLower_keepsBlank, by decide, by decide,
    updateSuggestions_blank_query asciiLower asciiLower_keepsBlank carteira (lit "")
      (by decide),
    updateSuggestions_blank_query asciiLower asciiLower_keepsBlank carteira (lit "  ")
      (by decide)⟩

/-! ## No match -/

theorem buscar_card_tier (lower : Str → Str) (dados : List Item) (q : JSVal) (x : Item)
    (h : buscar lower dados q = .card x) :
    x ∈ dados ∧ (TickerEq lower (normalize lower q) x ∨
      InNomeOuSetor lower (normalize lower q) x ∨ AllTokens lower (normalize lower q) x) := by
  by_cases hn : normalize lower q = []
  · rw [buscar_blank lower dados q hn] at h
    cases h
  · cases h1 : dados.find? (tickerIs lower (normalize lower q)) with
    | some a =>
      rw [buscar_tier1 lower dados q a hn h1] at h
      injection h with h
      subst h
      exact ⟨List.mem_of_find?_eq_some h1,
        Or.inl ((tickerIs_iff lower _ a).mp (List.find?_some h1))⟩
    | none =>
      cases h2 : dados.find? (nomeOuSetor lower (normalize lower q)) with
      | some a =>
        rw [buscar_tier2 lower dados q a hn h1 h2] at h
        injection h with h
        subst h
        exact ⟨List.mem_of_find?_eq_some h2,
          Or.inr (Or.inl ((nomeOuSetor_iff lower _ a).mp (List.find?_some h2)))⟩
      | none =>
        cases h3 : dados.find? (todosTokens lower (split (normalize lower q))) with
        | some a =>
          rw [buscar_tier3 lower dados q a hn h1 h2 h3] at h
          injection h with h
          subst h
          exact ⟨List.mem_of_find?_eq_some h3,
            Or.inr (Or.inr ((todosTokens_iff lower _ a).mp (List.find?_some h3)))⟩
        | none =>
          rw [buscar_none lower dados q hn h1 h2 h3] at h
          cases h

/-- C8: for every catalog and every query with non-empty normalised form `n`,
if no entry has lower-cased ticker `n`, no entry's lower-cased name or sector
contains `n`, and no entry satisfies the all-tokens rule, then `buscar` reports
that nothing was found; whenever `buscar` shows an entry, that entry is in the
catalog and passes one of the three tiers; and on the empty catalog every query
yields no match. -/
theorem buscar_no_match (lower : Str → Str) :
    (∀ (dados : List Item) (q : JSVal), normalize lower q ≠ [] →
      (∀ x ∈ dados, ¬ TickerEq lower (normalize lower q) x) →
      (∀ x ∈ dados, ¬ InNomeOuSetor lower (normalize lower q) x) →
      (∀ x ∈ dados, ¬ AllTokens lower (normalize lower q) x) →
      buscar lower dados q = .notFound q ∧ (buscar lower dados q).found = none) ∧
    (∀ (dados : List Item) (q : JSVal) (x : Item), buscar lower dados q = .card x →
      x ∈ dados ∧ (TickerEq lower (normalize lower q) x ∨
        InNomeOuSetor lower (normalize lower q) x ∨
        AllTokens lower (normalize lower q) x)) ∧
    (∀ q : JSVal, (buscar lower [] q).found = none) := by
  refine ⟨?_, buscar_card_tier lower, ?_⟩
  · intro dados q hn h1 h2 h3
    have h := buscar_none lower dados q hn
      (find?_none_of (tickerIs_iff lower _) h1)
      (find?_none_of (nomeOuSetor_iff lower _) h2)
      (find?_none_of (todosTokens_iff lower _) h3)
    rw [h]
    exact ⟨rfl, rfl⟩
  · intro q
    by_cases hn : normalize lower q = []
    · rw [buscar_blank lower [] q hn]; rfl
    · rw [buscar_none lower [] q hn rfl rfl rfl]; rfl

/-- Witness of `buscar_no_match`: the query `xyz` on the example catalog. -/
theorem buscar_no_match_witness :
    normalize asciiLower (lit "xyz") ≠ [] ∧
    (∀ x ∈ exemplo, ¬ TickerEq asciiLower (normalize asciiLower (lit "xyz")) x) ∧
    (∀ x ∈ exemplo, ¬ InNomeOuSetor asciiLower (normalize asciiLower (lit "xyz")) x) ∧
    (∀ x ∈ exemplo, ¬ AllTokens asciiLower (normalize asciiLower (lit "xyz")) x) ∧
    (buscar asciiLower exemplo (lit "xyz") = .notFound (lit "xyz") ∧
      (buscar asciiLower exemplo (lit "xyz")).found = none) ∧
    (buscar asciiLower [] (lit "petr4")).found = none :=
  ⟨by decide, by decide, by decide, by decide,
    (buscar_no_match asciiLower).1 exemplo (lit "xyz") (by decide) (by decide) (by decide)
      (by decide),
    (buscar_no_match asciiLower).2.2 (lit "petr4")⟩

/-! ## Single-word queries -/

theorem todosTokens_single (lower : Str → Str) (n : Str) :
    todosTokens lower [n] = nomeOuSetor lower n := by
  funext x
  simp [todosTokens, nomeOuSetor]

theorem inNomeOuSetor_allTokens (lower : Str → Str) (n : Str) (x : Item)
    (h : InNomeOuSetor lower n x) : AllTokens lower n x := by
  intro t ht
  have hin := split_infix n t ht
  rcases h with h | h
  · exact Or.inl (hin.trans h)
  · exact Or.inr (hin.trans h)

theorem buscar_eq_doisNiveis (lower : Str → Str) (dados : List Item) (q : JSVal)
    (hs : split (normalize lower q) = [normalize lower q]) :
    buscar lower dados q = buscarDoisNiveis lower dados q := by
  by_cases hn : normalize lower q = []
  · rw [buscar_blank lower dados q hn]
    simp [buscarDoisNiveis, hn]
  · cases h1 : dados.find? (tickerIs lower (normalize lower q)) with
    | some a =>
      rw [buscar_tier1 lower dados q a hn h1]
      simp [buscarDoisNiveis, hn, h1]
    | none =>
      cases h2 : dados.find? (nomeOuSetor lower (normalize lower q)) with
      | some a =>
        rw [buscar_tier2 lower dados q a hn h1 h2]
        simp [buscarDoisNiveis, hn, h1, h2]
      | none =>
        have h3 : dados.find? (todosTokens lower (split (normalize lower q))) = none := by
          rw [hs, todosTokens_single, h2]
        rw [buscar_none lower dados q hn h1 h2 h3]
        simp [buscarDoisNiveis, hn, h1, h2]

/-- C9: for every catalog and every query whose normalised form `n` is
non-empty and has no whitespace character, splitting `n` gives the single token
`n`, an entry satisfies the all-tokens rule exactly when its lower-cased name or
sector contains `n`, the third `find` returns what the second returns, and
`buscar` agrees with the two-tier matcher `buscarDoisNiveis`.  For every string
`n` whatsoever, an entry whose lower-cased name or sector contains `n` satisfies
the all-tokens rule for `n`. -/
theorem token_tier_redundant (lower : Str → Str) :
    (∀ (dados : List Item) (q : JSVal), normalize lower q ≠ [] →
      (∀ c ∈ normalize lower q, isJsSpace c = false) →
      split (normalize lower q) = [normalize lower q] ∧
      (∀ x, AllTokens lower (normalize lower q) x ↔
        InNomeOuSetor lower (normalize lower q) x) ∧
      dados.find? (todosTokens lower (split (normalize lower q)))
        = dados.find? (nomeOuSetor lower (normalize lower q)) ∧
      buscar lower dados q = buscarDoisNiveis lower dados q) ∧
    (∀ (n : Str) (x : Item), InNomeOuSetor lower n x → AllTokens lower n x) := by
  refine ⟨?_, inNomeOuSetor_allTokens lower⟩
  intro dados q _ hws
  have hs := split_noSpace (normalize lower q) hws
  refine ⟨hs, ?_, ?_, buscar_eq_doisNiveis lower dados q hs⟩
  · intro x
    constructor
    · intro h
      exact h (normalize lower q) (by rw [hs]; simp)
    · exact inNomeOuSetor_allTokens lower _ x
  · rw [hs, todosTokens_single]

/-- Witness of `token_tier_redundant`: the one-word query `petro` on the example
catalog. -/
theorem token_tier_redundant_witness :
    normalize asciiLower (lit "petro") ≠ [] ∧
    (∀ c ∈ normalize asciiLower (lit "petro"), isJsSpace c = false) ∧
    (split (normalize asciiLower (lit "petro")) = [normalize asciiLower (lit "petro")] ∧
      (∀ x, AllTokens asciiLower (normalize asciiLower (lit "petro")) x ↔
        InNomeOuSetor asciiLower (normalize asciiLower (lit "petro")) x) ∧
      exemplo.find? (todosTokens asciiLower (split (normalize asciiLower (lit "petro"))))
        = exemplo.find? (nomeOuSetor asciiLower (normalize asciiLower (lit "petro"))) ∧
      buscar asciiLower exemplo (lit "petro")
        = buscarDoisNiveis asciiLower exemplo (lit "petro")) ∧
    buscarDoisNiveis asciiLower exemplo (lit "petro") =
      .card ⟨lit "PETR4", lit "Petrobras", lit "Petróleo e Gás"⟩ :=
  ⟨by decide, by decide,
    (token_tier_redundant asciiLower).1 exemplo (lit "petro") (by decide) (by decide),
    by decide⟩

/-! ## Clicking a suggestion -/

theorem updateSuggestions_mem (lower : Str → Str) (dados : List Item) (q : JSVal)
    (m : Item) (hm : m ∈ updateSuggestions lower dados q) : m ∈ dados := by
  by_cases hn : normalize lower q = []
  · unfold normalize at hn
    simp [updateSuggestions, hn] at hm
  · rw [updateSuggestions_eq lower dados q hn] at hm
    exact (List.mem_filter.mp (List.mem_of_mem_take hm)).1

theorem textInput_keepsLines : KeepsLines textInput := by
  intro s hs
  unfold textInput
  rw [List.filter_eq_self]
  intro c hc
  have h := hs c hc
  simp [h.1, h.2]

/-- C10, as amended: for every catalog, every query and every suggested entry
`m` whose ticker is a string without a line break whose lower-cased form is
non-empty and free of leading and trailing whitespace, clicking the suggestion of
`m` shows a card, and the entry shown is the first catalog entry whose
lower-cased ticker equals the lower-cased ticker of `m`.  The input box is any
one that hands back unchanged the strings without a line break. -/
theorem clickSuggestion_shows_ticker (lower : Str → Str) (box : Str → Str)
    (hbox : KeepsLines box) (dados : List Item) (q : JSVal) (m : Item) (t : Str)
    (hm : m ∈ updateSuggestions lower dados q)
    (ht : m.ticker = .str t) (hnl : NoLineBreak t)
    (hne : lower t ≠ []) (htrim : trim (lower t) = lower t) :
    ∃ x, IsFirst (TickerEq lower (safeLower lower m.ticker)) dados x ∧
      safeLower lower x.ticker = safeLower lower m.ticker ∧
      clickSuggestion lower box dados m = .card x := by
  have hmem := updateSuggestions_mem lower dados q m hm
  have hback : box (template m.ticker) = t := by
    rw [ht]
    exact hbox t hnl
  have hsl : safeLower lower m.ticker = lower t := by
    rw [ht]; rfl
  have hnorm : normalize lower (.str (box (template m.ticker)))
      = safeLower lower m.ticker := by
    rw [hback, hsl]
    simp [normalize, safeLower, orEmpty, htrim]
  have hn : normalize lower (.str (box (template m.ticker))) ≠ [] := by
    rw [hnorm, hsl]; exact hne
  have hex : ∃ x ∈ dados,
      TickerEq lower (normalize lower (.str (box (template m.ticker)))) x :=
    ⟨m, hmem, by rw [hnorm]; rfl⟩
  obtain ⟨x, hx⟩ := find?_some_of (tickerIs_iff lower _) hex
  have hfirst := find?_isFirst (tickerIs_iff lower _) hx
  have hcard := buscar_tier1 lower dados (.str (box (template m.ticker))) x hn hx
  rw [hnorm] at hfirst
  exact ⟨x, hfirst, (isFirst_mem hfirst).2, hcard⟩

/-- Witness of `clickSuggestion_shows_ticker`: the suggestion of `VALE3` offered
for the query `a` on the example catalog, with a text input as the box. -/
theorem clickSuggestion_shows_ticker_witness :
    KeepsLines textInput ∧
    (⟨lit "VALE3", lit "Vale", lit "Mineração"⟩ : Item)
      ∈ updateSuggestions asciiLower exemplo (lit "a") ∧
    NoLineBreak "VALE3".toList ∧
    asciiLower "VALE3".toList ≠ [] ∧
    trim (asciiLower "VALE3".toList) = asciiLower "VALE3".toList ∧
    (∃ x, IsFirst (TickerEq asciiLower (safeLower asciiLower (lit "VALE3"))) exemplo x ∧
      safeLower asciiLower x.ticker = safeLower asciiLower (lit "VALE3") ∧
      clickSuggestion asciiLower textInput exemplo
        ⟨lit "VALE3", lit "Vale", lit "Mineração"⟩ = .card x) ∧
    clickSuggestion asciiLower textInput exemplo ⟨lit "VALE3", lit "Vale", lit "Mineração"⟩
      = .card ⟨lit "VALE3", lit "Vale", lit "Mineração"⟩ :=
  ⟨textInput_keepsLines, by decide, by decide, by decide, by decide,
    clickSuggestion_shows_ticker asciiLower textInput textInput_keepsLines exemplo (lit "a")
      ⟨lit "VALE3", lit "Vale", lit "Mineração"⟩ "VALE3".toList (by decide) rfl
      (by decide) (by decide) (by decide),
    by decide⟩

/-- C10 as stated fails, here with a text input as the box.  A suggested entry
whose ticker starts with a blank is not found again from its ticker, because the
query is trimmed and the ticker is not; an entry suggested for its name whose
ticker is empty only brings up the hint; an entry with no ticker puts the text
`undefined` in the input box, which nothing matches; and an entry whose ticker
holds a line feed is searched for without it, since the box drops line breaks. -/
theorem clickSuggestion_counterexample :
    (Item.mk (lit " ab") (lit "x") (lit "y")
        ∈ updateSuggestions asciiLower [Item.mk (lit " ab") (lit "x") (lit "y")] (lit "ab") ∧
      clickSuggestion asciiLower textInput [Item.mk (lit " ab") (lit "x") (lit "y")]
        (Item.mk (lit " ab") (lit "x") (lit "y")) = .notFound (lit " ab")) ∧
    (Item.mk (lit "") (lit "foo") (lit "y")
        ∈ updateSuggestions asciiLower [Item.mk (lit "") (lit "foo") (lit "y")] (lit "foo") ∧
      clickSuggestion asciiLower textInput [Item.mk (lit "") (lit "foo") (lit "y")]
        (Item.mk (lit "") (lit "foo") (lit "y")) = .hint) ∧
    (Item.mk .undefined (lit "foo") (lit "y")
        ∈ updateSuggestions asciiLower [Item.mk .undefined (lit "foo") (lit "y")]
          (lit "foo") ∧
      clickSuggestion asciiLower textInput [Item.mk .undefined (lit "foo") (lit "y")]
        (Item.mk .undefined (lit "foo") (lit "y")) = .notFound (lit "undefined")) ∧
    (Item.mk (lit "A\nB") (lit "x") (lit "y")
        ∈ updateSuggestions asciiLower [Item.mk (lit "A\nB") (lit "x") (lit "y")] (lit "a") ∧
      clickSuggestion asciiLower textInput [Item.mk (lit "A\nB") (lit "x") (lit "y")]
        (Item.mk (lit "A\nB") (lit "x") (lit "y")) = .notFound (lit "AB")) := by
  decide

end InvestView
